import Mathlib

/-!
Verification of the git-account manager (profile registry, SSH config editing,
remote-URL rewriting) against its natural-language specification.

The program text is shallowly embedded: file contents are `List Char`,
Python's text operations (`str.splitlines(True)`, `str.strip()`,
`str.startswith`, the `re` patterns used by the source, `json.dumps`/`json.loads`
restricted to the registry schema the tool reads and writes) are modelled as
executable Lean functions, and each operation of the tool is a pure function
from the file contents it reads to the file contents it writes together with
its console output and exit code.
-/

/-- File contents and strings are lists of characters. -/
abbrev LC := List Char

/-- Python `str.isspace` characters (the set CPython's `Py_UNICODE_ISSPACE`
recognises); `str.strip()` with no argument strips exactly these. -/
def pyIsSpace (c : Char) : Bool :=
  let n := c.toNat
  (0x09 ≤ n && n ≤ 0x0d) || (0x1c ≤ n && n ≤ 0x1f) || n == 0x20 || n == 0x85 ||
  n == 0xa0 || n == 0x1680 || (0x2000 ≤ n && n ≤ 0x200a) || n == 0x2028 ||
  n == 0x2029 || n == 0x202f || n == 0x205f || n == 0x3000

/-- The line boundaries recognised by Python `str.splitlines` (besides the
two-character boundary `"\r\n"`). -/
def isLineBreak (c : Char) : Bool :=
  let n := c.toNat
  (0x0a ≤ n && n ≤ 0x0d) || (0x1c ≤ n && n ≤ 0x1e) || n == 0x85 || n == 0x2028 || n == 0x2029

/-- Python `str.strip()`: drop leading and trailing whitespace. -/
def pyStrip (l : LC) : LC :=
  ((l.dropWhile pyIsSpace).reverse.dropWhile pyIsSpace).reverse

/-- Python `str.splitlines(keepends=True)`: split at line boundaries, keeping
the boundary characters attached to the end of each line. -/
def splitlines : LC → List LC
  | [] => []
  | '\r' :: '\n' :: rest => ['\r', '\n'] :: splitlines rest
  | c :: rest =>
    if isLineBreak c then [c] :: splitlines rest
    else
      match splitlines rest with
      | [] => [[c]]
      | l :: ls => (c :: l) :: ls

/-- The text block `GitAccountManager.update_ssh_config` appends for an alias:
a leading blank line, then `Host <alias>` and three tab-indented fields. -/
def ssh_config_entry (al ssh_key_path : LC) : LC :=
  '\n' :: ("Host ".data ++ al ++ '\n' ::
    ("\tHostName github.com\n\tUser git\n\tIdentityFile ".data ++ ssh_key_path ++ ['\n']))

/-- `GitAccountManager.update_ssh_config`: open the SSH config for append and
write the entry block (the spec's `appendBlock`). -/
def update_ssh_config (al ssh_key_path content : LC) : LC :=
  content ++ ssh_config_entry al ssh_key_path

/-- The source's removal trigger: `line.strip().startswith(f"Host {alias}")`. -/
def hostTrigger (al line : LC) : Bool :=
  ("Host ".data ++ al).isPrefixOf (pyStrip line)

/-- The source's suppression terminator test: `line.strip().startswith("Host ")`. -/
def hostAny (line : LC) : Bool :=
  "Host ".data.isPrefixOf (pyStrip line)

/-- The line-filtering loop of `remove_ssh_config_entry`: `skip` is the
`skip_lines` flag; a line whose stripped form starts with `Host <alias>`
turns suppression on and is dropped (`continue`); while suppressing, a line
that strips to start with `Host ` or strips to empty turns suppression off
(and is written); all non-suppressed lines are written. -/
def removeLoop (al : LC) : Bool → List LC → List LC
  | _, [] => []
  | skip, line :: rest =>
    if hostTrigger al line then removeLoop al true rest
    else
      let skip2 := if skip && (hostAny line || (pyStrip line).isEmpty) then false else skip
      if skip2 then removeLoop al skip2 rest
      else line :: removeLoop al skip2 rest

/-- `GitAccountManager.remove_ssh_config_entry` (the spec's `removeBlock`):
split the file into kept-ends lines, run the suppression loop, and write the
surviving lines back. -/
def remove_ssh_config_entry (al content : LC) : LC :=
  (removeLoop al false (splitlines content)).flatten

/-- One step of the deterministic matcher for the sub-pattern `[^@]+\.[^@]+`
after at least one leading non-`@` character has been consumed: succeed on a
`.` that is followed by a non-`@` character; otherwise consume the current
non-`@` character and continue. -/
def seekDot : LC → Bool
  | [] => false
  | c :: rest =>
    if c = '.' then
      match rest with
      | [] => false
      | d :: _ => (d != '@') || seekDot rest
    else (c != '@') && seekDot rest

/-- Matcher for `[^@]+\.[^@]+` at the start of a list. -/
def tailMatch : LC → Bool
  | [] => false
  | c :: rest => (c != '@') && seekDot rest

/-- After the first character (known non-`@`) of the email: scan the rest of
the local part up to the first `@`, then require `[^@]+\.[^@]+` to match.
Because the first group `[^@]+` of the regex cannot contain `@`, the `@`
consumed by any match is necessarily the first `@` of the string, so this
deterministic scan is equivalent to the regex's backtracking search. -/
def afterLocal : LC → Bool
  | [] => false
  | c :: rest => if c = '@' then tailMatch rest else afterLocal rest

/-- `GitAccountManager.validate_email`: executable form of
`re.match(r"[^@]+@[^@]+\.[^@]+", email)` — the pattern is anchored at the
start only (`re.match`), so arbitrary characters, including further `@`s,
may follow the matched prefix. -/
def validate_email : LC → Bool
  | [] => false
  | c :: rest => if c = '@' then false else afterLocal rest

/-- `re.search(r"[:/]([^/:]+)/([^/]+)\.git$", url)` of
`update_git_remote_origin`, with the URL already stripped
(`result.stdout.strip()`), returning the two capture groups. Because the
pattern is end-anchored and neither group may contain `/` (nor, for the first
group, `:`), a match exists iff the url ends in `.git`, the segment before
`.git` back to the last `/` is nonempty and `/`-free (group 2), and the
segment before that `/` back to the previous `:` or `/` is nonempty (group 1);
the leftmost-match rule picks exactly these segments. -/
def parse_remote_url (url : LC) : Option (LC × LC) :=
  if url.drop (url.length - 4) = ".git".data then
    let stem := url.take (url.length - 4)
    let repo := (stem.reverse.takeWhile (fun c => c != '/')).reverse
    if repo.isEmpty then none
    else if repo.length = stem.length then none
    else
      let before := stem.take (stem.length - repo.length - 1)
      let owner := (before.reverse.takeWhile (fun c => c != '/' && c != ':')).reverse
      if owner.isEmpty then none
      else if owner.length = before.length then none
      else some (owner, repo)
  else none

/-- The pure core of `GitAccountManager.update_git_remote_origin`: parse the
current origin URL; on failure raise (`none`); on success the new origin URL
is `git@{alias}:{username}/{repo}.git`. -/
def update_git_remote_origin (al url : LC) : Option LC :=
  (parse_remote_url url).map fun p =>
    "git@".data ++ al ++ ':' :: (p.1 ++ '/' :: (p.2 ++ ".git".data))

/-- Lowercase hex digit, as Python `json.dumps` emits inside `\uXXXX`. -/
def hexDig (n : Nat) : Char :=
  if n < 10 then Char.ofNat ('0'.toNat + n) else Char.ofNat ('a'.toNat + (n - 10))

/-- Four lowercase hex digits of a number below 0x10000. -/
def hex4 (n : Nat) : LC :=
  [hexDig (n / 4096 % 16), hexDig (n / 256 % 16), hexDig (n / 16 % 16), hexDig (n % 16)]

/-- Python `json.dumps` escaping of one character (`ensure_ascii=True`, the
default used by the source): short escapes for the two-character sequences,
printable ASCII verbatim, `\uXXXX` otherwise, with surrogate pairs for
characters beyond the Basic Multilingual Plane. -/
def escChar (c : Char) : LC :=
  if c = '"' then ['\\', '"']
  else if c = '\\' then ['\\', '\\']
  else if c = '\n' then ['\\', 'n']
  else if c = '\t' then ['\\', 't']
  else if c = '\r' then ['\\', 'r']
  else if c = '\x08' then ['\\', 'b']
  else if c = '\x0c' then ['\\', 'f']
  else if 0x20 ≤ c.toNat ∧ c.toNat ≤ 0x7e then [c]
  else if c.toNat < 0x10000 then '\\' :: 'u' :: hex4 c.toNat
  else
    '\\' :: 'u' :: hex4 (0xd800 + (c.toNat - 0x10000) / 0x400) ++
      '\\' :: 'u' :: hex4 (0xdc00 + (c.toNat - 0x10000) % 0x400)

/-- `json.dumps` escaping of a whole string (without the quotes). -/
def escString : LC → LC
  | [] => []
  | c :: s => escChar c ++ escString s

/-- A JSON string literal: quotes around the escaped content. -/
def quoteJ (s : LC) : LC := '"' :: (escString s ++ ['"'])

/-- One account as stored in the registry: `handle_add_account` writes
`configs[alias] = {"username": ..., "email": ..., "ssh_key_path": ...}`. -/
structure Profile where
  username : LC
  email : LC
  ssh_key_path : LC
deriving DecidableEq

/-- The registry: the JSON object of `~/.git-account/config.json`, an
insertion-ordered mapping alias -> Profile (Python dicts preserve insertion
order; `configs[alias] = ...` on a fresh alias appends at the end). -/
abbrev Registry := List (LC × Profile)

/-- `json.dumps(profile, indent=4)` at nesting depth 1: key/value pairs in
insertion order (username, email, ssh_key_path) with 8-space indentation and
the closing brace at 4 spaces — exactly the layout `save_config` produces. -/
def dumpProfile (v : Profile) : LC :=
  "\x7b\n        ".data ++ quoteJ "username".data ++ ": ".data ++ quoteJ v.username ++
  ",\n        ".data ++ quoteJ "email".data ++ ": ".data ++ quoteJ v.email ++
  ",\n        ".data ++ quoteJ "ssh_key_path".data ++ ": ".data ++ quoteJ v.ssh_key_path ++
  "\n    \x7d".data

/-- One top-level entry of the dumped registry: 4-space indent, quoted alias,
`: `, then the profile object. -/
def dumpEntry (k : LC) (v : Profile) : LC :=
  "    ".data ++ quoteJ k ++ ": ".data ++ dumpProfile v

/-- The remaining entries after the first, each preceded by `,\n`, then the
final newline and closing brace. -/
def dumpTail : Registry → LC
  | [] => "\n\x7d".data
  | (k, v) :: rest => ",\n".data ++ dumpEntry k v ++ dumpTail rest

/-- `json.dumps(config, indent=4)`: `{}` for the empty registry, otherwise the
brace/newline layout Python produces (verified byte-for-byte against
CPython's output for this schema). -/
def json_dumps : Registry → LC
  | [] => "\x7b\x7d".data
  | (k, v) :: rest => "\x7b\n".data ++ dumpEntry k v ++ dumpTail rest

/-- `GitAccountManager.save_config`: write `json.dumps(config, indent=4)`. -/
def save_config (r : Registry) : LC := json_dumps r

/-- JSON inter-token whitespace. -/
def jsonWs (c : Char) : Bool := c == ' ' || c == '\t' || c == '\n' || c == '\r'

/-- Skip JSON whitespace. -/
def skipWs (l : LC) : LC := l.dropWhile jsonWs

/-- Value of one hex digit (JSON accepts both cases). -/
def hexVal (c : Char) : Option Nat :=
  if '0' ≤ c ∧ c ≤ '9' then some (c.toNat - '0'.toNat)
  else if 'a' ≤ c ∧ c ≤ 'f' then some (c.toNat - 'a'.toNat + 10)
  else if 'A' ≤ c ∧ c ≤ 'F' then some (c.toNat - 'A'.toNat + 10)
  else none

/-- Value of a four-hex-digit escape. -/
def hex4Val (h1 h2 h3 h4 : Char) : Option Nat :=
  match hexVal h1, hexVal h2, hexVal h3, hexVal h4 with
  | some a, some b, some c, some d => some (a * 4096 + b * 256 + c * 16 + d)
  | _, _, _, _ => none

/-- The single-character JSON escapes. -/
def escDecode (e : Char) : Option Char :=
  if e = '"' then some '"'
  else if e = '\\' then some '\\'
  else if e = '/' then some '/'
  else if e = 'n' then some '\n'
  else if e = 't' then some '\t'
  else if e = 'r' then some '\r'
  else if e = 'b' then some '\x08'
  else if e = 'f' then some '\x0c'
  else none

/-- JSON string-body parser (positioned just after the opening quote),
following `json.loads` in strict mode: raw control characters are rejected,
escapes are decoded, a high-surrogate `\uXXXX` must be completed by a low
surrogate (`Char` holds Unicode scalar values, so the lone-surrogate strings
Python tolerates have no counterpart here; the tool never writes them).
Returns the decoded string and the input after the closing quote. The fuel
only bounds recursion depth; every step consumes at least one input
character, so fuel `≥` the input length never runs out first. -/
def parseJStr : Nat → LC → Option (LC × LC)
  | 0, _ => none
  | fuel + 1, l =>
    match l with
    | [] => none
    | c :: rest =>
      if c = '"' then some ([], rest)
      else if c = '\\' then
        match rest with
        | [] => none
        | e :: rest2 =>
          if e = 'u' then
            match rest2 with
            | h1 :: h2 :: h3 :: h4 :: rest3 =>
              match hex4Val h1 h2 h3 h4 with
              | some n =>
                if n < 0xd800 ∨ 0xe000 ≤ n then
                  (parseJStr fuel rest3).map fun p => (Char.ofNat n :: p.1, p.2)
                else if n < 0xdc00 then
                  match rest3 with
                  | '\\' :: 'u' :: g1 :: g2 :: g3 :: g4 :: rest4 =>
                    match hex4Val g1 g2 g3 g4 with
                    | some m =>
                      if 0xdc00 ≤ m ∧ m < 0xe000 then
                        (parseJStr fuel rest4).map fun p =>
                          (Char.ofNat (0x10000 + (n - 0xd800) * 0x400 + (m - 0xdc00)) :: p.1, p.2)
                      else none
                    | none => none
                  | _ => none
                else none
              | none => none
            | _ => none
          else
            match escDecode e with
            | some d => (parseJStr fuel rest2).map fun p => (d :: p.1, p.2)
            | none => none
      else if c.toNat < 0x20 then none
      else (parseJStr fuel rest).map fun p => (c :: p.1, p.2)

/-- Parse optional whitespace followed by a JSON string. -/
def parseKey (sf : Nat) (l : LC) : Option (LC × LC) :=
  match skipWs l with
  | '"' :: r => parseJStr sf r
  | _ => none

/-- Parse optional whitespace followed by `:`. -/
def expectColon (l : LC) : Option LC :=
  match skipWs l with
  | ':' :: r => some r
  | _ => none

/-- Parse one `"key": "value"` pair of string-typed members. -/
def parsePair (sf : Nat) (l : LC) : Option ((LC × LC) × LC) :=
  match parseKey sf l with
  | some (k, r1) =>
    match expectColon r1 with
    | some r2 =>
      match parseKey sf r2 with
      | some (v, r3) => some ((k, v), r3)
      | none => none
    | none => none
  | none => none

/-- After the first pair of an object: `, pair` repeated, then `}` (trailing
commas rejected, as in `json.loads`). The fuel bounds the number of pairs. -/
def parsePairsTail (sf : Nat) : Nat → LC → Option (List (LC × LC) × LC)
  | 0, _ => none
  | fuel + 1, l =>
    match skipWs l with
    | '\x7d' :: r => some ([], r)
    | ',' :: r =>
      match parsePair sf r with
      | some (p, r2) => (parsePairsTail sf fuel r2).map fun q => (p :: q.1, q.2)
      | none => none
    | _ => none

/-- Parse a profile object: `json.loads` restricted to the registry schema —
the member values must be strings and the members must be exactly
`username`, `email`, `ssh_key_path` in that order, the only shape
`save_config` ever writes (a profile has exactly three members, so pair fuel
5 is never the reason a parse fails). -/
def parseProfile (sf : Nat) (l : LC) : Option (Profile × LC) :=
  match skipWs l with
  | '\x7b' :: r =>
    match parsePair sf r with
    | some (p1, r1) =>
      match parsePairsTail sf 5 r1 with
      | some (ps, r2) =>
        match p1 :: ps with
        | [(k1, u), (k2, e), (k3, pa)] =>
          if k1 = "username".data ∧ k2 = "email".data ∧ k3 = "ssh_key_path".data then
            some (⟨u, e, pa⟩, r2)
          else none
        | _ => none
      | none => none
    | none => none
  | _ => none

/-- Parse one top-level `"alias": {profile}` entry. -/
def parseEntry (sf : Nat) (l : LC) : Option ((LC × Profile) × LC) :=
  match parseKey sf l with
  | some (k, r1) =>
    match expectColon r1 with
    | some r2 =>
      match parseProfile sf r2 with
      | some (v, r3) => some ((k, v), r3)
      | none => none
    | none => none
  | none => none

/-- After the first top-level entry: `, entry` repeated, then `}`. -/
def parseEntriesTail (sf : Nat) : Nat → LC → Option (Registry × LC)
  | 0, _ => none
  | fuel + 1, l =>
    match skipWs l with
    | '\x7d' :: r => some ([], r)
    | ',' :: r =>
      match parseEntry sf r with
      | some (e, r2) => (parseEntriesTail sf fuel r2).map fun q => (e :: q.1, q.2)
      | none => none
    | _ => none

/-- `json.loads` restricted to the registry schema (an object mapping strings
to `{username, email, ssh_key_path}` string objects): parse the outer object
and require the input to be exhausted. String fuel and entry fuel are seeded
with `content.length + 1`, which neither loop can exhaust first. -/
def json_loads (content : LC) : Option Registry :=
  match skipWs content with
  | '\x7b' :: r =>
    match skipWs r with
    | '\x7d' :: r2 => if skipWs r2 = [] then some [] else none
    | _ =>
      match parseEntry (content.length + 1) r with
      | some (e, r2) =>
        match parseEntriesTail (content.length + 1) (content.length + 1) r2 with
        | some (es, r3) => if skipWs r3 = [] then some (e :: es) else none
        | none => none
      | none => none
  | _ => none

/-- `GitAccountManager.get_configs`: read and JSON-parse the config file
(`none` models the `json.JSONDecodeError` -> `GitAccountConfigError` path). -/
def get_configs (content : LC) : Option Registry := json_loads content

/-- `get_usernames`: `[account["username"] for account in configs.values()]`. -/
def get_usernames (r : Registry) : List LC := r.map fun e => e.2.username

/-- `get_emails`: `[account["email"] for account in configs.values()]`. -/
def get_emails (r : Registry) : List LC := r.map fun e => e.2.email

/-- `get_aliases`: `list(configs.keys())`. -/
def get_aliases (r : Registry) : List LC := r.map fun e => e.1

/-- The duplicate-check / validation failures of `handle_add_account`
(each raised as a `GitAccountConfigError` with the corresponding message),
plus the `get_configs` failure on an unparseable registry file. -/
inductive AddFailure
  | configCorrupt
  | duplicateUsername
  | invalidEmail
  | duplicateEmail
  | duplicateAlias
deriving DecidableEq

/-- The registry logic of `handle_add_account`, in the source's order:
username duplicate check, email format check, email duplicate check, alias
duplicate check, then insertion of the new profile at the end of the mapping.
(The SSH-key resolution between the last check and the save is interactive
and environment-dependent; the key path is taken as given.) -/
def handle_add_account (r : Registry) (username email al ssh_key_path : LC) :
    Except AddFailure Registry :=
  if username ∈ get_usernames r then .error .duplicateUsername
  else if ¬ validate_email email then .error .invalidEmail
  else if email ∈ get_emails r then .error .duplicateEmail
  else if al ∈ get_aliases r then .error .duplicateAlias
  else .ok (r ++ [(al, ⟨username, email, ssh_key_path⟩)])

/-- The add operation at the file level: `save_config` runs only after every
check has passed, so on any failure the registry file is left untouched. -/
def add_op (content : LC) (username email al ssh_key_path : LC) : LC × Option AddFailure :=
  match get_configs content with
  | none => (content, some .configCorrupt)
  | some r =>
    match handle_add_account r username email al ssh_key_path with
    | .error err => (content, some err)
    | .ok r2 => (save_config r2, none)

/-- Python `del configs[alias]`: remove the entry for the alias, preserving
the order of the others (dict keys are unique, so at most one entry matches). -/
def removeKey (r : Registry) (al : LC) : Registry :=
  r.filter fun e => e.1 != al

/-- Where a console message is printed: `print` writes to stdout,
`logger.error` to stderr. -/
inductive OutStream
  | stdout
  | stderr
deriving DecidableEq

/-- Observable outcome of one CLI invocation: the two files it may rewrite,
the message printed, the stream it goes to, and the process exit code. -/
structure CmdResult where
  config : LC
  ssh : LC
  message : LC
  stream : OutStream
  exitCode : Nat
deriving DecidableEq

/-- The `--remove` branch of `main`: parse the registry (an unparseable file
raises, is logged to stderr and exits 1); if the alias is a key, delete it,
save, rewrite the SSH config without its block and report success; otherwise
print `Account <alias> not found` — via `print`, hence to stdout — and fall
through to a normal exit 0. -/
def main_remove (config ssh al : LC) : CmdResult :=
  match get_configs config with
  | none => ⟨config, ssh, "Invalid config file format".data, .stderr, 1⟩
  | some r =>
    if al ∈ get_aliases r then
      ⟨save_config (removeKey r al), remove_ssh_config_entry al ssh,
        "Account ".data ++ al ++ " removed successfully".data, .stdout, 0⟩
    else
      ⟨config, ssh, "Account ".data ++ al ++ " not found".data, .stdout, 0⟩

/-- The `--remove-all` branch of `main`: `CONFIG_FILE.unlink(missing_ok=True)`
then `SSH_CONFIG_FILE.unlink(missing_ok=True)` — both files are deleted
outright (`none` = the file does not exist). -/
def main_remove_all (_config _ssh : Option LC) : Option LC × Option LC :=
  (none, none)

/-! ### Helper lemmas about `splitlines` -/

theorem splitlines_crlf (rest : LC) :
    splitlines ('\r' :: '\n' :: rest) = ['\r', '\n'] :: splitlines rest := rfl

theorem splitlines_break {c : Char} (rest : LC) (h : isLineBreak c = true)
    (hcr : c = '\r' → ∀ r2, rest ≠ '\n' :: r2) :
    splitlines (c :: rest) = [c] :: splitlines rest := by
  rw [splitlines.eq_def]
  split
  · simp_all
  · rename_i r2 heq
    exfalso
    injection heq with h1 h2
    exact hcr h1 r2 h2
  · rename_i c2 rest2 hne heq
    injection heq with h1 h2
    subst h1; subst h2
    rw [if_pos h]

theorem splitlines_nobreak {c : Char} (rest : LC) (h : isLineBreak c = false) :
    splitlines (c :: rest) =
      match splitlines rest with
      | [] => [[c]]
      | l :: ls => (c :: l) :: ls := by
  rw [splitlines.eq_def]
  split
  · simp_all
  · rename_i r2 heq
    exfalso
    injection heq with h1 h2
    subst h1
    simp [isLineBreak] at h
  · rename_i c2 rest2 hne heq
    injection heq with h1 h2
    subst h1; subst h2
    rw [if_neg (by simp [h])]

theorem splitlines_eq_nil_iff (l : LC) : splitlines l = [] ↔ l = [] := by
  constructor
  · intro h
    cases l with
    | nil => rfl
    | cons c rest =>
      exfalso
      by_cases hb : isLineBreak c = true
      · by_cases hcr : c = '\r' ∧ ∃ r2, rest = '\n' :: r2
        · obtain ⟨hc, r2, hr⟩ := hcr
          subst hc; subst hr
          simp [splitlines_crlf] at h
        · rw [splitlines_break rest hb] at h
          · simp at h
          · intro hc r2 hr
            exact hcr ⟨hc, r2, hr⟩
      · rw [splitlines_nobreak rest (by simpa using hb)] at h
        cases hsr : splitlines rest with
        | nil => rw [hsr] at h; simp at h
        | cons a as => rw [hsr] at h; simp at h
  · intro h; subst h; rfl

theorem flatten_splitlines (l : LC) : (splitlines l).flatten = l := by
  induction l using splitlines.induct with
  | case1 => rfl
  | case2 rest ih => simpa [splitlines_crlf] using ih
  | case3 c rest hne hb ih =>
    rw [splitlines_break rest hb (fun hc r2 hr => hne r2 hc hr)]
    simpa using ih
  | case4 c rest hne hb hnil ih =>
    rw [splitlines_nobreak rest (by simpa using hb), hnil]
    have : rest = [] := (splitlines_eq_nil_iff rest).mp hnil
    subst this
    rfl
  | case5 c rest hne hb l ls hcons ih =>
    rw [splitlines_nobreak rest (by simpa using hb), hcons]
    rw [hcons] at ih
    simp at ih ⊢
    exact ih

theorem splitlines_append_nl (A : LC) : ∀ B : LC,
    splitlines (A ++ '\n' :: B) = splitlines (A ++ ['\n']) ++ splitlines B := by
  induction A using splitlines.induct with
  | case1 =>
    intro B
    simp only [List.nil_append]
    rw [splitlines_break B (by decide) (fun hc => by simp at hc)]
    rfl
  | case2 rest ih =>
    intro B
    simp only [List.cons_append]
    rw [splitlines_crlf, splitlines_crlf, ih]
    rfl
  | case3 c rest hne hb ih =>
    intro B
    by_cases hre : rest = [] ∧ c = '\r'
    · obtain ⟨h1, h2⟩ := hre
      subst h1; subst h2
      rw [show (['\r'] ++ '\n' :: B : LC) = '\r' :: '\n' :: B from rfl, splitlines_crlf]
      rfl
    · have hguard : ∀ X : LC, c = '\r' → ∀ r2, rest ++ X ≠ '\n' :: r2 := by
        intro X hc r2 hcontra
        subst hc
        cases rest with
        | nil => exact hre ⟨rfl, rfl⟩
        | cons x xs =>
          simp only [List.cons_append, List.cons.injEq] at hcontra
          exact hne xs rfl (by rw [hcontra.1])
      rw [show (c :: rest ++ '\n' :: B : LC) = c :: (rest ++ '\n' :: B) from rfl,
          splitlines_break _ hb (hguard ('\n' :: B)),
          show (c :: rest ++ ['\n'] : LC) = c :: (rest ++ ['\n']) from rfl,
          splitlines_break _ hb (hguard ['\n']),
          ih B]
      rfl
  | case4 c rest hne hb hnil ih =>
    intro B
    have hb2 : isLineBreak c = false := by simpa using hb
    obtain ⟨l, ls, hcons2⟩ : ∃ l ls, splitlines (rest ++ ['\n']) = l :: ls := by
      cases hsp : splitlines (rest ++ ['\n']) with
      | nil => exact absurd ((splitlines_eq_nil_iff _).mp hsp) (by simp)
      | cons a as => exact ⟨a, as, rfl⟩
    rw [show (c :: rest ++ '\n' :: B : LC) = c :: (rest ++ '\n' :: B) from rfl,
        splitlines_nobreak _ hb2,
        show (c :: rest ++ ['\n'] : LC) = c :: (rest ++ ['\n']) from rfl,
        splitlines_nobreak _ hb2, ih B, hcons2]
    rfl
  | case5 c rest hne hb l0 ls0 hcons ih =>
    intro B
    have hb2 : isLineBreak c = false := by simpa using hb
    obtain ⟨l, ls, hcons2⟩ : ∃ l ls, splitlines (rest ++ ['\n']) = l :: ls := by
      cases hsp : splitlines (rest ++ ['\n']) with
      | nil => exact absurd ((splitlines_eq_nil_iff _).mp hsp) (by simp)
      | cons a as => exact ⟨a, as, rfl⟩
    rw [show (c :: rest ++ '\n' :: B : LC) = c :: (rest ++ '\n' :: B) from rfl,
        splitlines_nobreak _ hb2,
        show (c :: rest ++ ['\n'] : LC) = c :: (rest ++ ['\n']) from rfl,
        splitlines_nobreak _ hb2, ih B, hcons2]
    rfl

theorem splitlines_nobreak_line (A : LC) (hA : ∀ c ∈ A, isLineBreak c = false) :
    ∀ B : LC, splitlines (A ++ '\n' :: B) = (A ++ ['\n']) :: splitlines B := by
  induction A with
  | nil =>
    intro B
    simp only [List.nil_append]
    rw [splitlines_break B (by decide) (fun hc => by simp at hc)]
  | cons a A ih =>
    intro B
    have ha : isLineBreak a = false := hA a (by simp)
    rw [show (a :: A ++ '\n' :: B : LC) = a :: (A ++ '\n' :: B) from rfl,
        splitlines_nobreak _ ha, ih (fun c hc => hA c (by simp [hc])) B]
    rfl

/-! ### Helper lemmas about `pyStrip` and the removal loop -/

theorem dropWhile_append_singleton {p : Char → Bool} {a : Char} (xs : LC) (ha : p a = false) :
    (xs ++ [a]).dropWhile p = xs.dropWhile p ++ [a] := by
  induction xs with
  | nil => simp [List.dropWhile, ha]
  | cons x xs ih =>
    by_cases hx : p x
    · simp [List.dropWhile, hx, ih]
    · simp [List.dropWhile, hx]

theorem pyStrip_cons_head {a : Char} (t : LC) (ha : pyIsSpace a = false) :
    ∃ u, pyStrip (a :: t) = a :: u := by
  unfold pyStrip
  rw [List.dropWhile_cons_of_neg (by simp [ha])]
  rw [show (a :: t : LC).reverse = t.reverse ++ [a] from by simp]
  rw [dropWhile_append_singleton _ ha]
  exact ⟨(t.reverse.dropWhile pyIsSpace).reverse, by simp⟩

theorem pyStrip_host_line (al : LC) (hne : al ≠ [])
    (hsp : ∀ c ∈ al, pyIsSpace c = false) :
    pyStrip ("Host ".data ++ al ++ ['\n']) = "Host ".data ++ al := by
  have hL : List.dropWhile pyIsSpace ("Host ".data ++ al ++ ['\n']) =
      "Host ".data ++ al ++ ['\n'] := by
    rw [show ("Host ".data ++ al ++ ['\n'] : LC) = 'H' :: ("ost ".data ++ al ++ ['\n']) from rfl]
    exact List.dropWhile_cons_of_neg (by decide)
  obtain ⟨b, bs, hrev⟩ : ∃ b bs, al.reverse = b :: bs := by
    cases h : al.reverse with
    | nil => exact absurd (by simpa using congrArg List.reverse h) hne
    | cons b bs => exact ⟨b, bs, rfl⟩
  have hb : pyIsSpace b = false := hsp b (by
    have hmem : b ∈ al.reverse := by rw [hrev]; simp
    simpa using hmem)
  have hrevHost : ("Host ".data : LC).reverse = " tsoH".data := by decide
  have hrev2 : ("Host ".data ++ al ++ ['\n'] : LC).reverse = '\n' :: (b :: (bs ++ " tsoH".data)) := by
    rw [List.reverse_append, List.reverse_append, hrevHost, hrev]
    rfl
  unfold pyStrip
  rw [hL, hrev2, List.dropWhile_cons_of_pos (by decide), List.dropWhile_cons_of_neg (by simp [hb])]
  rw [show (b :: (bs ++ " tsoH".data) : LC) = (b :: bs) ++ " tsoH".data from rfl]
  rw [List.reverse_append, ← hrev, List.reverse_reverse]
  rw [show (" tsoH".data : LC).reverse = "Host ".data from by decide]

theorem pyStrip_cons_ws {c : Char} (rest : LC) (h : pyIsSpace c = true) :
    pyStrip (c :: rest) = pyStrip rest := by
  unfold pyStrip
  rw [List.dropWhile_cons_of_pos (by simp [h])]

theorem isPrefixOf_self (l : LC) : l.isPrefixOf l = true := by
  induction l with
  | nil => rfl
  | cons a t ih => simp [List.isPrefixOf, ih]

theorem hostTrigger_hostline (al : LC) (hne : al ≠ [])
    (hsp : ∀ c ∈ al, pyIsSpace c = false) :
    hostTrigger al ("Host ".data ++ al ++ ['\n']) = true := by
  unfold hostTrigger
  rw [pyStrip_host_line al hne hsp]
  exact isPrefixOf_self _

theorem hostTrigger_false_of_strip_head {al line : LC} {d : Char} {u : LC}
    (hstrip : pyStrip line = d :: u) (hd : d ≠ 'H') :
    hostTrigger al line = false ∧ hostAny line = false := by
  constructor
  · unfold hostTrigger
    rw [hstrip, show ("Host ".data ++ al : LC) = 'H' :: ("ost ".data ++ al) from rfl]
    simp [List.isPrefixOf, hd.symm]
  · unfold hostAny
    rw [hstrip, show ("Host ".data : LC) = 'H' :: "ost ".data from rfl]
    simp [List.isPrefixOf, hd.symm]

theorem hostname_line_strip : pyStrip "\tHostName github.com\n".data = "HostName github.com".data := by
  decide

theorem user_line_strip : pyStrip "\tUser git\n".data = "User git".data := by decide

theorem hostTrigger_hostname (al : LC) :
    hostTrigger al "\tHostName github.com\n".data = false := by
  unfold hostTrigger
  rw [hostname_line_strip, show ("Host ".data ++ al : LC) = 'H' :: 'o' :: 's' :: 't' :: ' ' :: al from rfl]
  simp [List.isPrefixOf]

theorem hostAny_hostname : hostAny "\tHostName github.com\n".data = false := by decide

theorem hostTrigger_user (al : LC) : hostTrigger al "\tUser git\n".data = false := by
  unfold hostTrigger
  rw [user_line_strip, show ("Host ".data ++ al : LC) = 'H' :: 'o' :: 's' :: 't' :: ' ' :: al from rfl]
  simp [List.isPrefixOf]

theorem hostAny_user : hostAny "\tUser git\n".data = false := by decide

theorem idf_line_strip (p : LC) :
    ∃ u, pyStrip ("\tIdentityFile ".data ++ p ++ ['\n']) = 'I' :: u := by
  rw [show ("\tIdentityFile ".data ++ p ++ ['\n'] : LC) =
      '\t' :: ('I' :: ("dentityFile ".data ++ p ++ ['\n'])) from rfl]
  rw [pyStrip_cons_ws _ (by decide)]
  exact pyStrip_cons_head _ (by decide)

theorem hostTrigger_blank (al : LC) : hostTrigger al ['\n'] = false := by
  unfold hostTrigger
  rw [show pyStrip ['\n'] = [] from by decide,
      show ("Host ".data ++ al : LC) = 'H' :: ("ost ".data ++ al) from rfl]
  rfl

theorem removeLoop_mem_no_trigger (al : LC) :
    ∀ (lines : List LC) (sk : Bool) (l : LC), l ∈ removeLoop al sk lines →
      hostTrigger al l = false := by
  intro lines
  induction lines with
  | nil => intro sk l h; simp [removeLoop] at h
  | cons line rest ih =>
    intro sk l h
    rw [removeLoop] at h
    by_cases ht : hostTrigger al line = true
    · rw [if_pos ht] at h
      exact ih _ _ h
    · rw [if_neg ht] at h
      simp only at h
      by_cases h2 : (if sk && (hostAny line || (pyStrip line).isEmpty) then false else sk) = true
      · rw [if_pos h2] at h
        exact ih _ _ h
      · rw [if_neg h2] at h
        rcases List.mem_cons.mp h with h1 | h12
        · subst h1; simpa using ht
        · exact ih _ _ h12

theorem removeLoop_clean_append (al : LC) (L : List LC)
    (hL : ∀ l ∈ L, hostTrigger al l = false) (R : List LC) :
    removeLoop al false (L ++ R) = L ++ removeLoop al false R := by
  induction L with
  | nil => rfl
  | cons line rest ih =>
    have ht : hostTrigger al line = false := hL line (by simp)
    have hrest := ih (fun l hl => hL l (by simp [hl]))
    simp [List.cons_append, removeLoop, ht, hrest]

theorem lineBreak_space {c : Char} (h : isLineBreak c = true) : pyIsSpace c = true := by
  simp only [isLineBreak, Bool.or_eq_true, Bool.and_eq_true, decide_eq_true_eq, beq_iff_eq] at h
  simp only [pyIsSpace, Bool.or_eq_true, Bool.and_eq_true, decide_eq_true_eq, beq_iff_eq]
  omega

theorem removeLoop_skip_step (al line : LC) (rest : List LC)
    (h1 : hostTrigger al line = false) (h2 : hostAny line = false)
    (h3 : (pyStrip line).isEmpty = false) :
    removeLoop al true (line :: rest) = removeLoop al true rest := by
  rw [removeLoop, if_neg (by simp [h1])]
  simp [h2, h3]

theorem append_then_remove (s al p : LC) (hne : al ≠ [])
    (hsp : ∀ c ∈ al, pyIsSpace c = false)
    (hp : ∀ c ∈ p, isLineBreak c = false)
    (hs : ∀ l ∈ splitlines (s ++ ['\n']), hostTrigger al l = false) :
    remove_ssh_config_entry al (update_ssh_config al p s) = s ++ ['\n'] := by
  have halb : ∀ c ∈ al, isLineBreak c = false := by
    intro c hc
    cases hb : isLineBreak c with
    | false => rfl
    | true => exact absurd (lineBreak_space hb) (by simp [hsp c hc])
  unfold update_ssh_config ssh_config_entry remove_ssh_config_entry
  rw [splitlines_append_nl]
  rw [splitlines_nobreak_line ("Host ".data ++ al) (by
    intro c hc
    rcases List.mem_append.mp hc with h1 | h2
    · exact (by decide : ∀ x ∈ ("Host ".data : LC), isLineBreak x = false) c h1
    · exact halb c h2)]
  rw [show ("\tHostName github.com\n\tUser git\n\tIdentityFile ".data ++ p ++ ['\n'] : LC) =
      "\tHostName github.com".data ++ '\n' :: ("\tUser git".data ++ '\n' ::
        (("\tIdentityFile ".data ++ p) ++ '\n' :: [])) from by
    simp [List.append_assoc]]
  rw [splitlines_nobreak_line "\tHostName github.com".data (by decide)]
  rw [splitlines_nobreak_line "\tUser git".data (by decide)]
  rw [splitlines_nobreak_line ("\tIdentityFile ".data ++ p) (by
    intro c hc
    rcases List.mem_append.mp hc with h1 | h2
    · exact (by decide : ∀ x ∈ ("\tIdentityFile ".data : LC), isLineBreak x = false) c h1
    · exact hp c h2)]
  rw [show splitlines [] = [] from rfl]
  rw [removeLoop_clean_append al _ hs]
  rw [show ("\tHostName github.com".data ++ ['\n'] : LC) = "\tHostName github.com\n".data from rfl]
  rw [show ("\tUser git".data ++ ['\n'] : LC) = "\tUser git\n".data from rfl]
  obtain ⟨u, hu⟩ := idf_line_strip p
  have hidf := @hostTrigger_false_of_strip_head al _ _ _ hu (by decide)
  rw [removeLoop, if_pos (hostTrigger_hostline al hne hsp)]
  rw [removeLoop_skip_step al _ _ (hostTrigger_hostname al) hostAny_hostname (by decide)]
  rw [removeLoop_skip_step al _ _ (hostTrigger_user al) hostAny_user (by decide)]
  rw [removeLoop_skip_step al _ _ hidf.1 hidf.2 (by rw [hu]; rfl)]
  rw [show removeLoop al true [] = [] from rfl]
  rw [List.append_nil, flatten_splitlines]

/-! ### Claims about the SSH config editor -/

set_option maxRecDepth 100000 in
/-- C1: the claim says `removeBlock("work")` on a config holding blocks for
`work` and `work2` removes only the `work` block and leaves `work2`
byte-for-byte intact. The code violates this: its trigger is the string-prefix
test `line.strip().startswith("Host work")`, which the line `Host work2` also
passes, so both blocks are suppressed and only the separating blank line
survives — evaluated here on the failing input. -/
theorem c1_remove_work_also_removes_work2 :
    remove_ssh_config_entry "work".data
        "Host work\n\tHostName github.com\n\tUser git\n\tIdentityFile ~/.ssh/work.pub\n\nHost work2\n\tHostName github.com\n\tUser git\n\tIdentityFile ~/.ssh/work2.pub\n".data
      = "\n".data ∧
    ("Host work2".data <:+:
        "Host work\n\tHostName github.com\n\tUser git\n\tIdentityFile ~/.ssh/work.pub\n\nHost work2\n\tHostName github.com\n\tUser git\n\tIdentityFile ~/.ssh/work2.pub\n".data) ∧
    ¬ ("Host work2".data <:+:
        remove_ssh_config_entry "work".data
          "Host work\n\tHostName github.com\n\tUser git\n\tIdentityFile ~/.ssh/work.pub\n\nHost work2\n\tHostName github.com\n\tUser git\n\tIdentityFile ~/.ssh/work2.pub\n".data) := by
  refine ⟨by decide, by decide, by decide⟩

set_option maxRecDepth 100000 in
/-- C2: the claim says remove-all keeps SSH config blocks of hosts outside the
registry. The code's `--remove-all` branch unlinks the whole SSH config file
(`SSH_CONFIG_FILE.unlink(missing_ok=True)`), so a foreign `Host personal`
block that was present beforehand is destroyed along with the file. -/
theorem c2_remove_all_destroys_foreign_blocks :
    main_remove_all
        (some (save_config [("work".data,
          ⟨"alice".data, "alice@example.com".data, "~/.ssh/work.pub".data⟩)]))
        (some "\nHost work\n\tHostName github.com\n\tUser git\n\tIdentityFile ~/.ssh/work.pub\n\nHost personal\n\tHostName github.com\n\tUser git\n\tIdentityFile ~/.ssh/personal.pub\n".data)
      = (none, none) ∧
    ("Host personal".data <:+:
        "\nHost work\n\tHostName github.com\n\tUser git\n\tIdentityFile ~/.ssh/work.pub\n\nHost personal\n\tHostName github.com\n\tUser git\n\tIdentityFile ~/.ssh/personal.pub\n".data) := by
  refine ⟨rfl, by decide⟩

/-- C4 (amended): appending a block and immediately removing it for the same
alias does not restore the file byte-for-byte — the blank separator line that
`appendBlock` put in front of the block survives, so the result is the
original content plus one extra newline. Precisely: provided the alias is
nonempty and whitespace-free, the key path has no line breaks, and no line of
the original config already matches the alias trigger, append-then-remove
yields exactly the original content followed by `'\n'`. -/
theorem c4_append_then_remove_leaves_extra_newline (s al p : LC) (hne : al ≠ [])
    (hsp : ∀ c ∈ al, pyIsSpace c = false)
    (hp : ∀ c ∈ p, isLineBreak c = false)
    (hs : ∀ l ∈ splitlines (s ++ ['\n']), hostTrigger al l = false) :
    remove_ssh_config_entry al (update_ssh_config al p s) = s ++ ['\n'] :=
  append_then_remove s al p hne hsp hp hs

/-- C4 witness: the amended statement evaluated at a concrete config. -/
theorem c4_append_then_remove_witness :
    remove_ssh_config_entry "a".data
        (update_ssh_config "a".data "k".data "Host other\n".data)
      = "Host other\n".data ++ ['\n'] :=
  c4_append_then_remove_leaves_extra_newline "Host other\n".data "a".data "k".data
    (by decide) (by decide) (by decide) (by decide)

/-- C4 counterexample: on the empty config, `appendBlock("a", "k")` followed by
`removeBlock("a")` yields `"\n"`, not the original empty content, refuting the
claim as stated. -/
theorem c4_roundtrip_counterexample :
    remove_ssh_config_entry "a".data (update_ssh_config "a".data "k".data []) = ['\n'] ∧
    ('\n' :: [] : LC) ≠ [] := by
  refine ⟨by decide, by decide⟩

/-- C9: one pass of `removeBlock(alias)` removes every block whose `Host` line
matches the alias, not only the first: the suppression trigger fires on each
matching `Host` line, so no such line survives in the output (first conjunct,
for every config and every state of the skip flag), and a config holding two
identical blocks appended for the same alias is reduced to the two blank
separator lines in a single call (second conjunct). -/
theorem c9_remove_block_removes_all_matching_blocks :
    (∀ (al : LC) (sk : Bool) (lines : List LC) (l : LC),
        l ∈ removeLoop al sk lines → hostTrigger al l = false) ∧
    remove_ssh_config_entry "acc".data
        (update_ssh_config "acc".data "~/.ssh/acc.pub".data
          (update_ssh_config "acc".data "~/.ssh/acc.pub".data [])) = "\n\n".data :=
  ⟨fun al sk lines l h => removeLoop_mem_no_trigger al lines sk l h, by decide⟩

/-- C9 witness: the universal part applied to a concrete config. -/
theorem c9_remove_block_witness : hostTrigger "acc".data "keep\n".data = false :=
  c9_remove_block_removes_all_matching_blocks.1 "acc".data false ["keep\n".data]
    "keep\n".data (by decide)

/-! ### Characterisation of the email regex matcher -/

theorem seekDot_decomp : ∀ u : LC, seekDot u = true →
    ∃ m c r, u = m ++ '.' :: c :: r ∧ (∀ x ∈ m, (x : Char) ≠ '@') ∧ c ≠ '@' := by
  intro u
  induction u with
  | nil => intro h; simp [seekDot] at h
  | cons a rest ih =>
    intro h
    rw [seekDot.eq_def] at h
    simp only at h
    by_cases ha : a = '.'
    · subst ha
      rw [if_pos rfl] at h
      cases rest with
      | nil => simp at h
      | cons d r2 =>
        simp only [Bool.or_eq_true, bne_iff_ne] at h
        rcases h with hd | hrec
        · exact ⟨[], d, r2, rfl, by simp, hd⟩
        · obtain ⟨m, c, r, heq, hm, hc⟩ := ih hrec
          refine ⟨'.' :: m, c, r, by rw [heq]; rfl, ?_, hc⟩
          intro x hx
          rcases List.mem_cons.mp hx with h1 | h2
          · subst h1; decide
          · exact hm x h2
    · rw [if_neg ha] at h
      simp only [Bool.and_eq_true, bne_iff_ne] at h
      obtain ⟨m, c, r, heq, hm, hc⟩ := ih h.2
      refine ⟨a :: m, c, r, by rw [heq]; rfl, ?_, hc⟩
      intro x hx
      rcases List.mem_cons.mp hx with h1 | h2
      · subst h1; exact h.1
      · exact hm x h2

theorem seekDot_of_decomp : ∀ (m : LC) (c : Char) (r : LC),
    (∀ x ∈ m, (x : Char) ≠ '@') → c ≠ '@' →
    seekDot (m ++ '.' :: c :: r) = true := by
  intro m
  induction m with
  | nil =>
    intro c r _ hc
    simp [seekDot, bne_iff_ne, hc]
  | cons x m ih =>
    intro c r hm hc
    rw [List.cons_append, seekDot.eq_def]
    simp only
    have hrec : seekDot (m ++ '.' :: c :: r) = true :=
      ih c r (fun y hy => hm y (by simp [hy])) hc
    by_cases hx : x = '.'
    · rw [if_pos hx]
      cases hrest : m ++ '.' :: c :: r with
      | nil => simp at hrest
      | cons d r2 =>
        rw [hrest] at hrec
        simp [hrec]
    · rw [if_neg hx]
      simp [bne_iff_ne, hm x (by simp), hrec]

theorem tailMatch_iff (q : LC) : tailMatch q = true ↔
    ∃ m c r, q = m ++ '.' :: c :: r ∧ m ≠ [] ∧ (∀ x ∈ m, (x : Char) ≠ '@') ∧ c ≠ '@' := by
  constructor
  · intro h
    cases q with
    | nil => simp [tailMatch] at h
    | cons a rest =>
      rw [tailMatch] at h
      simp only [Bool.and_eq_true, bne_iff_ne] at h
      obtain ⟨m, c, r, heq, hm, hc⟩ := seekDot_decomp rest h.2
      refine ⟨a :: m, c, r, by rw [heq]; rfl, by simp, ?_, hc⟩
      intro x hx
      rcases List.mem_cons.mp hx with h1 | h2
      · subst h1; exact h.1
      · exact hm x h2
  · rintro ⟨m, c, r, heq, hne, hm, hc⟩
    subst heq
    cases m with
    | nil => simp at hne
    | cons a m2 =>
      rw [List.cons_append, tailMatch]
      simp only [Bool.and_eq_true, bne_iff_ne]
      exact ⟨hm a (by simp), seekDot_of_decomp m2 c r (fun y hy => hm y (by simp [hy])) hc⟩

theorem afterLocal_iff : ∀ t : LC, afterLocal t = true ↔
    ∃ pre suf, t = pre ++ '@' :: suf ∧ (∀ x ∈ pre, (x : Char) ≠ '@') ∧ tailMatch suf = true := by
  intro t
  induction t with
  | nil =>
    simp only [afterLocal]
    constructor
    · intro h; simp at h
    · rintro ⟨pre, suf, heq, _, _⟩
      exact absurd heq (by simp)
  | cons a rest ih =>
    by_cases ha : a = '@'
    · subst ha
      rw [afterLocal, if_pos rfl]
      constructor
      · intro h
        exact ⟨[], rest, rfl, by simp, h⟩
      · rintro ⟨pre, suf, heq, hpre, hsuf⟩
        cases pre with
        | nil =>
          simp only [List.nil_append, List.cons.injEq] at heq
          rw [heq.2]; exact hsuf
        | cons b pre2 =>
          simp only [List.cons_append, List.cons.injEq] at heq
          exact absurd heq.1.symm (hpre b (by simp))
    · rw [afterLocal, if_neg ha, ih]
      constructor
      · rintro ⟨pre, suf, heq, hpre, hsuf⟩
        refine ⟨a :: pre, suf, by rw [heq]; rfl, ?_, hsuf⟩
        intro x hx
        rcases List.mem_cons.mp hx with h1 | h2
        · subst h1; exact ha
        · exact hpre x h2
      · rintro ⟨pre, suf, heq, hpre, hsuf⟩
        cases pre with
        | nil =>
          simp only [List.nil_append, List.cons.injEq] at heq
          exact absurd heq.1 ha
        | cons b pre2 =>
          simp only [List.cons_append, List.cons.injEq] at heq
          exact ⟨pre2, suf, heq.2, fun x hx => hpre x (by simp [hx]), hsuf⟩

theorem validate_email_iff (s : LC) : validate_email s = true ↔
    ∃ l m c r, s = l ++ '@' :: (m ++ '.' :: c :: r) ∧ l ≠ [] ∧ m ≠ [] ∧
      (∀ x ∈ l, (x : Char) ≠ '@') ∧ (∀ x ∈ m, (x : Char) ≠ '@') ∧ c ≠ '@' := by
  cases s with
  | nil =>
    simp only [validate_email]
    constructor
    · intro h; simp at h
    · rintro ⟨l, m, c, r, heq, hl, _, _, _, _⟩
      exact absurd heq (by simp)
  | cons a rest =>
    by_cases ha : a = '@'
    · subst ha
      rw [validate_email, if_pos rfl]
      constructor
      · intro h; simp at h
      · rintro ⟨l, m, c, r, heq, hl, _, hla, _, _⟩
        cases l with
        | nil => simp at hl
        | cons b l2 =>
          simp only [List.cons_append, List.cons.injEq] at heq
          exact absurd heq.1.symm (hla b (by simp))
    · rw [validate_email, if_neg ha, afterLocal_iff]
      constructor
      · rintro ⟨pre, suf, heq, hpre, hsuf⟩
        obtain ⟨m, c, r, hq, hm0, hm, hc⟩ := (tailMatch_iff suf).mp hsuf
        refine ⟨a :: pre, m, c, r, by rw [heq, hq]; rfl, by simp, hm0, ?_, hm, hc⟩
        intro x hx
        rcases List.mem_cons.mp hx with h1 | h2
        · subst h1; exact ha
        · exact hpre x h2
      · rintro ⟨l, m, c, r, heq, hl, hm0, hla, hm, hc⟩
        cases l with
        | nil => simp at hl
        | cons b l2 =>
          simp only [List.cons_append, List.cons.injEq] at heq
          refine ⟨l2, m ++ '.' :: c :: r, heq.2, fun x hx => hla x (by simp [hx]), ?_⟩
          exact (tailMatch_iff _).mpr ⟨m, c, r, rfl, hm0, hm, hc⟩

/-! ### Claims about email validation and remote-URL rewriting -/

/-- C6 counterexample: `validate_email` accepts `"a@b.c@d"`, which contains two
`@` characters, so the claimed equivalence with "exactly one `@`, at least one
`.` after it, and no `@` elsewhere" is false: `re.match` anchors the pattern
only at the start, and the trailing `"@d"` lies outside the matched prefix. -/
theorem c6_validate_email_counterexample :
    validate_email "a@b.c@d".data = true ∧ "a@b.c@d".data.count '@' = 2 := by
  refine ⟨by decide, by decide⟩

/-- C6 (amended): `validateEmail(s)` is a pure predicate that is true iff some
prefix of `s` has the form `local@mid.tail` with `local`, `mid` nonempty and
`@`-free and `tail` starting with a non-`@` character — the regex
`[^@]+@[^@]+\.[^@]+` is anchored at the start only, so arbitrary characters
(including further `@`s) may follow. The three examples of the claim hold as
stated. -/
theorem c6_validate_email_spec :
    (∀ s : LC, validate_email s = true ↔
      ∃ l m c r, s = l ++ '@' :: (m ++ '.' :: c :: r) ∧ l ≠ [] ∧ m ≠ [] ∧
        (∀ x ∈ l, (x : Char) ≠ '@') ∧ (∀ x ∈ m, (x : Char) ≠ '@') ∧ c ≠ '@') ∧
    validate_email "a@b.com".data = true ∧
    validate_email "a@b".data = false ∧
    validate_email "a.com".data = false :=
  ⟨validate_email_iff, by decide, by decide, by decide⟩

/-- C6 witness: the characterisation applied at `"a@b.com"`. -/
theorem c6_validate_email_witness :
    ∃ l m c r, ("a@b.com".data : LC) = l ++ '@' :: (m ++ '.' :: c :: r) ∧ l ≠ [] ∧ m ≠ [] ∧
      (∀ x ∈ l, (x : Char) ≠ '@') ∧ (∀ x ∈ m, (x : Char) ≠ '@') ∧ c ≠ '@' :=
  (c6_validate_email_spec.1 "a@b.com".data).mp (by decide)

/-- C7: `rewriteRemoteOrigin` extracts owner and repo with the trailing
pattern `[:/]<owner>/<repo>.git` anchored at the end of the URL and produces
exactly `git@<alias>:<owner>/<repo>.git`, failing (raising
`GitAccountConfigError`, modelled as `none`) when the pattern does not match;
on origin `https://github.com/acme/widgets.git` with alias `work` the result
is exactly `git@work:acme/widgets.git`. -/
theorem c7_rewrite_remote_origin :
    update_git_remote_origin "work".data "https://github.com/acme/widgets.git".data
      = some "git@work:acme/widgets.git".data ∧
    (∀ al url, parse_remote_url url = none → update_git_remote_origin al url = none) ∧
    (∀ al url owner repo, parse_remote_url url = some (owner, repo) →
      update_git_remote_origin al url
        = some ("git@".data ++ al ++ ':' :: (owner ++ '/' :: (repo ++ ".git".data)))) := by
  refine ⟨by decide, ?_, ?_⟩
  · intro al url h
    simp [update_git_remote_origin, h]
  · intro al url owner repo h
    simp [update_git_remote_origin, h]

/-- C7 witness: the failure case applied to an unparseable URL and the success
case applied to the concrete origin of the claim. -/
theorem c7_rewrite_remote_origin_witness :
    update_git_remote_origin "work".data "nope".data = none ∧
    update_git_remote_origin "work".data "https://github.com/acme/widgets.git".data
      = some ("git@".data ++ "work".data ++ ':' ::
          ("acme".data ++ '/' :: ("widgets".data ++ ".git".data))) :=
  ⟨c7_rewrite_remote_origin.2.1 "work".data "nope".data (by decide),
   c7_rewrite_remote_origin.2.2 "work".data "https://github.com/acme/widgets.git".data
     "acme".data "widgets".data (by decide)⟩

/-! ### JSON round-trip: character-level lemmas -/

theorem charValidNat (c : Char) :
    c.toNat < 0xd800 ∨ (0xe000 ≤ c.toNat ∧ c.toNat < 0x110000) := c.valid

theorem hexVal_hexDig : ∀ d : Nat, d < 16 → hexVal (hexDig d) = some d := by decide

theorem hex4Val_hex4 (n : Nat) (h : n < 65536) :
    hex4Val (hexDig (n / 4096 % 16)) (hexDig (n / 256 % 16))
      (hexDig (n / 16 % 16)) (hexDig (n % 16)) = some n := by
  unfold hex4Val
  rw [hexVal_hexDig _ (by omega), hexVal_hexDig _ (by omega),
      hexVal_hexDig _ (by omega), hexVal_hexDig _ (by omega)]
  show some _ = some n
  congr 1
  omega


theorem parseJStr_close (fuel : Nat) (rest : LC) :
    parseJStr (fuel + 1) ('"' :: rest) = some ([], rest) := by
  rw [parseJStr.eq_def]
  exact rfl

theorem parseJStr_esc {e d : Char} (hd : escDecode e = some d) (he : e ≠ 'u')
    (fuel : Nat) (l : LC) :
    parseJStr (fuel + 1) ('\\' :: e :: l)
      = (parseJStr fuel l).map fun p => (d :: p.1, p.2) := by
  simp [parseJStr, hd, he]

theorem parseJStr_lit {c : Char} (h1 : c ≠ '"') (h2 : c ≠ '\\') (h3 : ¬ c.toNat < 0x20)
    (fuel : Nat) (l : LC) :
    parseJStr (fuel + 1) (c :: l) = (parseJStr fuel l).map fun p => (c :: p.1, p.2) := by
  simp [parseJStr, h1, h2, h3]

theorem parseJStr_u {h1 h2 h3 h4 : Char} {n : Nat} (hn : hex4Val h1 h2 h3 h4 = some n)
    (hval : n < 0xd800 ∨ 0xe000 ≤ n) (fuel : Nat) (l : LC) :
    parseJStr (fuel + 1) ('\\' :: 'u' :: h1 :: h2 :: h3 :: h4 :: l)
      = (parseJStr fuel l).map fun p => (Char.ofNat n :: p.1, p.2) := by
  simp [parseJStr, hn, hval]

theorem parseJStr_surr {h1 h2 h3 h4 g1 g2 g3 g4 : Char} {n m : Nat}
    (hn : hex4Val h1 h2 h3 h4 = some n) (hm : hex4Val g1 g2 g3 g4 = some m)
    (hnr : 0xd800 ≤ n ∧ n < 0xdc00) (hmr : 0xdc00 ≤ m ∧ m < 0xe000)
    (fuel : Nat) (l : LC) :
    parseJStr (fuel + 1) ('\\' :: 'u' :: h1 :: h2 :: h3 :: h4 :: '\\' :: 'u' :: g1 :: g2 :: g3 :: g4 :: l)
      = (parseJStr fuel l).map fun p =>
          (Char.ofNat (0x10000 + (n - 0xd800) * 0x400 + (m - 0xdc00)) :: p.1, p.2) := by
  have h1 : ¬ (n < 0xd800 ∨ 0xe000 ≤ n) := by omega
  have h2 : n < 0xdc00 := hnr.2
  simp [parseJStr, hn, hm, hmr, h1, h2]

theorem parseJStr_escString : ∀ (s rest : LC) (fuel : Nat), s.length < fuel →
    parseJStr fuel (escString s ++ '"' :: rest) = some (s, rest) := by
  intro s
  induction s with
  | nil =>
    intro rest fuel hf
    obtain ⟨f, rfl⟩ : ∃ f, fuel = f + 1 := ⟨fuel - 1, by omega⟩
    exact parseJStr_close f rest
  | cons c s ih =>
    intro rest fuel hf
    obtain ⟨f, rfl⟩ : ∃ f, fuel = f + 1 := ⟨fuel - 1, by omega⟩
    have hf2 : s.length < f := by
      simp only [List.length_cons] at hf
      omega
    have hrec := ih rest f hf2
    rw [show escString (c :: s) = escChar c ++ escString s from rfl]
    rw [List.append_assoc]
    unfold escChar
    split_ifs with h1 h2 h3 h4 h5 h6 h7 h8 h9
    · subst h1
      rw [show ((['\\', '"'] : LC) ++ (escString s ++ '"' :: rest))
          = '\\' :: '"' :: (escString s ++ '"' :: rest) from rfl]
      rw [parseJStr_esc (d := '"') (by decide) (by decide), hrec]
      rfl
    · subst h2
      rw [show ((['\\', '\\'] : LC) ++ (escString s ++ '"' :: rest))
          = '\\' :: '\\' :: (escString s ++ '"' :: rest) from rfl]
      rw [parseJStr_esc (d := '\\') (by decide) (by decide), hrec]
      rfl
    · subst h3
      rw [show ((['\\', 'n'] : LC) ++ (escString s ++ '"' :: rest))
          = '\\' :: 'n' :: (escString s ++ '"' :: rest) from rfl]
      rw [parseJStr_esc (d := '\n') (by decide) (by decide), hrec]
      rfl
    · subst h4
      rw [show ((['\\', 't'] : LC) ++ (escString s ++ '"' :: rest))
          = '\\' :: 't' :: (escString s ++ '"' :: rest) from rfl]
      rw [parseJStr_esc (d := '\t') (by decide) (by decide), hrec]
      rfl
    · subst h5
      rw [show ((['\\', 'r'] : LC) ++ (escString s ++ '"' :: rest))
          = '\\' :: 'r' :: (escString s ++ '"' :: rest) from rfl]
      rw [parseJStr_esc (d := '\r') (by decide) (by decide), hrec]
      rfl
    · subst h6
      rw [show ((['\\', 'b'] : LC) ++ (escString s ++ '"' :: rest))
          = '\\' :: 'b' :: (escString s ++ '"' :: rest) from rfl]
      rw [parseJStr_esc (d := '\x08') (by decide) (by decide), hrec]
      rfl
    · subst h7
      rw [show ((['\\', 'f'] : LC) ++ (escString s ++ '"' :: rest))
          = '\\' :: 'f' :: (escString s ++ '"' :: rest) from rfl]
      rw [parseJStr_esc (d := '\x0c') (by decide) (by decide), hrec]
      rfl
    · rw [show (([c] : LC) ++ (escString s ++ '"' :: rest))
          = c :: (escString s ++ '"' :: rest) from rfl]
      rw [parseJStr_lit h1 h2 (by omega) , hrec]
      rfl
    · rw [show (('\\' :: 'u' :: hex4 c.toNat) ++ (escString s ++ '"' :: rest))
          = '\\' :: 'u' :: (hexDig (c.toNat / 4096 % 16)) :: (hexDig (c.toNat / 256 % 16)) ::
            (hexDig (c.toNat / 16 % 16)) :: (hexDig (c.toNat % 16)) ::
            (escString s ++ '"' :: rest) from by simp [hex4]]
      have hval : c.toNat < 0xd800 ∨ 0xe000 ≤ c.toNat := by
        rcases charValidNat c with h | ⟨h, _⟩
        · exact Or.inl h
        · exact Or.inr h
      rw [parseJStr_u (hex4Val_hex4 c.toNat h9) hval, hrec, Char.ofNat_toNat]
      rfl
    · have hlt : c.toNat < 0x110000 := by
        rcases charValidNat c with h | ⟨_, h⟩
        · omega
        · exact h
      have hge : 0x10000 ≤ c.toNat := by omega
      rw [show (('\\' :: 'u' :: hex4 (0xd800 + (c.toNat - 0x10000) / 0x400) ++
            '\\' :: 'u' :: hex4 (0xdc00 + (c.toNat - 0x10000) % 0x400)) ++
            (escString s ++ '"' :: rest))
          = '\\' :: 'u' :: (hexDig ((0xd800 + (c.toNat - 0x10000) / 0x400) / 4096 % 16)) ::
            (hexDig ((0xd800 + (c.toNat - 0x10000) / 0x400) / 256 % 16)) ::
            (hexDig ((0xd800 + (c.toNat - 0x10000) / 0x400) / 16 % 16)) ::
            (hexDig ((0xd800 + (c.toNat - 0x10000) / 0x400) % 16)) ::
            '\\' :: 'u' :: (hexDig ((0xdc00 + (c.toNat - 0x10000) % 0x400) / 4096 % 16)) ::
            (hexDig ((0xdc00 + (c.toNat - 0x10000) % 0x400) / 256 % 16)) ::
            (hexDig ((0xdc00 + (c.toNat - 0x10000) % 0x400) / 16 % 16)) ::
            (hexDig ((0xdc00 + (c.toNat - 0x10000) % 0x400) % 16)) ::
            (escString s ++ '"' :: rest) from by simp [hex4]]
      rw [parseJStr_surr (n := 0xd800 + (c.toNat - 0x10000) / 0x400)
            (m := 0xdc00 + (c.toNat - 0x10000) % 0x400)
            (hex4Val_hex4 (0xd800 + (c.toNat - 0x10000) / 0x400) (by omega))
            (hex4Val_hex4 (0xdc00 + (c.toNat - 0x10000) % 0x400) (by omega))
            (by omega) (by omega), hrec]
      rw [show 0x10000 + (0xd800 + (c.toNat - 0x10000) / 0x400 - 0xd800) * 0x400 +
            (0xdc00 + (c.toNat - 0x10000) % 0x400 - 0xdc00) = c.toNat from by omega]
      rw [Char.ofNat_toNat]
      rfl

/-! ### JSON round-trip: object-level lemmas -/

theorem skipWs_cons_nws {c : Char} (l : LC) (h : jsonWs c = false) :
    skipWs (c :: l) = c :: l := by
  unfold skipWs
  rw [List.dropWhile_cons_of_neg (by simp [h])]

theorem skipWs_allws_append (pre : LC) (hpre : ∀ c ∈ pre, jsonWs c = true) (l : LC) :
    skipWs (pre ++ l) = skipWs l := by
  induction pre with
  | nil => rfl
  | cons c t ih =>
    rw [List.cons_append]
    unfold skipWs
    rw [List.dropWhile_cons_of_pos (by simp [hpre c (by simp)])]
    exact ih (fun x hx => hpre x (by simp [hx]))

theorem parseKey_quote (sf : Nat) (pre k X : LC)
    (hpre : ∀ c ∈ pre, jsonWs c = true) (hk : k.length < sf) :
    parseKey sf (pre ++ (quoteJ k ++ X)) = some (k, X) := by
  unfold parseKey
  rw [skipWs_allws_append pre hpre,
      show (quoteJ k ++ X : LC) = '"' :: (escString k ++ '"' :: X) from by simp [quoteJ],
      skipWs_cons_nws _ (by decide)]
  show parseJStr sf (escString k ++ '"' :: X) = some (k, X)
  exact parseJStr_escString k X sf hk

theorem expectColon_colon (W : LC) : expectColon (": ".data ++ W) = some (' ' :: W) := by
  unfold expectColon
  rw [show (": ".data ++ W : LC) = ':' :: (' ' :: W) from rfl,
      skipWs_cons_nws _ (by decide)]
  rfl

theorem parsePair_quote (sf : Nat) (pre k v X : LC)
    (hpre : ∀ c ∈ pre, jsonWs c = true) (hk : k.length < sf) (hv : v.length < sf) :
    parsePair sf (pre ++ (quoteJ k ++ (": ".data ++ (quoteJ v ++ X)))) = some ((k, v), X) := by
  unfold parsePair
  rw [parseKey_quote sf pre k _ hpre hk]
  show (match expectColon (": ".data ++ (quoteJ v ++ X)) with
    | some r2 =>
      match parseKey sf r2 with
      | some (w, r3) => some ((k, w), r3)
      | none => none
    | none => none) = some ((k, v), X)
  rw [expectColon_colon]
  show (match parseKey sf ([' '] ++ (quoteJ v ++ X)) with
    | some (w, r3) => some ((k, w), r3)
    | none => none) = some ((k, v), X)
  rw [parseKey_quote sf [' '] v X (by decide) hv]

theorem parsePairsTail_comma (sf fuel : Nat) (k v X : LC) (hk : k.length < sf) (hv : v.length < sf) :
    parsePairsTail sf (fuel + 1) (",\n        ".data ++ (quoteJ k ++ (": ".data ++ (quoteJ v ++ X))))
      = (parsePairsTail sf fuel X).map fun q => ((k, v) :: q.1, q.2) := by
  rw [parsePairsTail]
  rw [show (",\n        ".data ++ (quoteJ k ++ (": ".data ++ (quoteJ v ++ X))) : LC)
      = ',' :: ("\n        ".data ++ (quoteJ k ++ (": ".data ++ (quoteJ v ++ X)))) from rfl,
    skipWs_cons_nws _ (by decide)]
  show (match parsePair sf ("\n        ".data ++ (quoteJ k ++ (": ".data ++ (quoteJ v ++ X)))) with
    | some (p, r2) => (parsePairsTail sf fuel r2).map fun q => (p :: q.1, q.2)
    | none => none) = (parsePairsTail sf fuel X).map fun q => ((k, v) :: q.1, q.2)
  rw [parsePair_quote sf "\n        ".data k v X (by decide) hk hv]

theorem parsePairsTail_close (sf fuel : Nat) (Y : LC) :
    parsePairsTail sf (fuel + 1) ("\n    \x7d".data ++ Y) = some ([], Y) := by
  rw [parsePairsTail]
  rw [show ("\n    \x7d".data ++ Y : LC) = "\n    ".data ++ ("\x7d".data ++ Y) from rfl,
    skipWs_allws_append _ (by decide),
    show ("\x7d".data ++ Y : LC) = '\x7d' :: Y from rfl,
    skipWs_cons_nws _ (by decide)]
  rfl

theorem profilePairsTail (sf : Nat) (e p Y : LC)
    (he : e.length < sf) (hp : p.length < sf) (hsf : 12 < sf) :
    parsePairsTail sf 5 (",\n        ".data ++ (quoteJ "email".data ++ (": ".data ++ (quoteJ e ++
      (",\n        ".data ++ (quoteJ "ssh_key_path".data ++ (": ".data ++ (quoteJ p ++
        ("\n    \x7d".data ++ Y)))))))))
      = some ([("email".data, e), ("ssh_key_path".data, p)], Y) := by
  show parsePairsTail sf (4 + 1) (",\n        ".data ++ (quoteJ "email".data ++ (": ".data ++ (quoteJ e ++
      (",\n        ".data ++ (quoteJ "ssh_key_path".data ++ (": ".data ++ (quoteJ p ++
        ("\n    \x7d".data ++ Y)))))))))
      = some ([("email".data, e), ("ssh_key_path".data, p)], Y)
  rw [parsePairsTail_comma sf 4 "email".data e _
    (by have h5 : ("email".data : LC).length = 5 := by decide
        omega) he]
  show (parsePairsTail sf (3 + 1) (",\n        ".data ++ (quoteJ "ssh_key_path".data ++ (": ".data ++ (quoteJ p ++
        ("\n    \x7d".data ++ Y)))))).map (fun q => (("email".data, e) :: q.1, q.2))
      = some ([("email".data, e), ("ssh_key_path".data, p)], Y)
  rw [parsePairsTail_comma sf 3 "ssh_key_path".data p _
    (by have h12 : ("ssh_key_path".data : LC).length = 12 := by decide
        omega) hp]
  show ((parsePairsTail sf (2 + 1) ("\n    \x7d".data ++ Y)).map
        (fun q => (("ssh_key_path".data, p) :: q.1, q.2))).map
        (fun q => (("email".data, e) :: q.1, q.2))
      = some ([("email".data, e), ("ssh_key_path".data, p)], Y)
  rw [parsePairsTail_close sf 2 Y]
  rfl

theorem parseProfile_dump (sf : Nat) (pre : LC) (v : Profile) (Y : LC)
    (hpre : ∀ c ∈ pre, jsonWs c = true) (hsf : 12 < sf)
    (hu : v.username.length < sf) (he : v.email.length < sf) (hp : v.ssh_key_path.length < sf) :
    parseProfile sf (pre ++ (dumpProfile v ++ Y)) = some (v, Y) := by
  have hc : dumpProfile v ++ Y
      = "\x7b\n        ".data ++ (quoteJ "username".data ++ (": ".data ++ (quoteJ v.username ++
        (",\n        ".data ++ (quoteJ "email".data ++ (": ".data ++ (quoteJ v.email ++
        (",\n        ".data ++ (quoteJ "ssh_key_path".data ++ (": ".data ++ (quoteJ v.ssh_key_path ++
        ("\n    \x7d".data ++ Y)))))))))))) := by
    simp [dumpProfile, List.append_assoc]
  rw [hc]
  unfold parseProfile
  rw [skipWs_allws_append pre hpre,
    show ("\x7b\n        ".data ++ (quoteJ "username".data ++ (": ".data ++ (quoteJ v.username ++
        (",\n        ".data ++ (quoteJ "email".data ++ (": ".data ++ (quoteJ v.email ++
        (",\n        ".data ++ (quoteJ "ssh_key_path".data ++ (": ".data ++ (quoteJ v.ssh_key_path ++
        ("\n    \x7d".data ++ Y)))))))))))) : LC)
      = '\x7b' :: ("\n        ".data ++ (quoteJ "username".data ++ (": ".data ++ (quoteJ v.username ++
        (",\n        ".data ++ (quoteJ "email".data ++ (": ".data ++ (quoteJ v.email ++
        (",\n        ".data ++ (quoteJ "ssh_key_path".data ++ (": ".data ++ (quoteJ v.ssh_key_path ++
        ("\n    \x7d".data ++ Y))))))))))))) from rfl,
    skipWs_cons_nws _ (by decide)]
  show (match parsePair sf ("\n        ".data ++ (quoteJ "username".data ++ (": ".data ++ (quoteJ v.username ++
        (",\n        ".data ++ (quoteJ "email".data ++ (": ".data ++ (quoteJ v.email ++
        (",\n        ".data ++ (quoteJ "ssh_key_path".data ++ (": ".data ++ (quoteJ v.ssh_key_path ++
        ("\n    \x7d".data ++ Y))))))))))))) with
    | some (p1, r1) =>
      match parsePairsTail sf 5 r1 with
      | some (ps, r2) =>
        match p1 :: ps with
        | [(k1, u), (k2, e), (k3, pa)] =>
          if k1 = "username".data ∧ k2 = "email".data ∧ k3 = "ssh_key_path".data then
            some (⟨u, e, pa⟩, r2)
          else none
        | _ => none
      | none => none
    | none => none) = some (v, Y)
  rw [parsePair_quote sf "\n        ".data "username".data v.username _ (by decide)
    (by have h8 : ("username".data : LC).length = 8 := by decide
        omega) hu]
  show (match parsePairsTail sf 5 (",\n        ".data ++ (quoteJ "email".data ++ (": ".data ++ (quoteJ v.email ++
        (",\n        ".data ++ (quoteJ "ssh_key_path".data ++ (": ".data ++ (quoteJ v.ssh_key_path ++
        ("\n    \x7d".data ++ Y))))))))) with
      | some (ps, r2) =>
        match ("username".data, v.username) :: ps with
        | [(k1, u), (k2, e), (k3, pa)] =>
          if k1 = "username".data ∧ k2 = "email".data ∧ k3 = "ssh_key_path".data then
            some (⟨u, e, pa⟩, r2)
          else none
        | _ => none
      | none => none) = some (v, Y)
  rw [profilePairsTail sf v.email v.ssh_key_path Y he hp hsf]
  simp

set_option maxHeartbeats 1000000 in
theorem parseEntry_dump (sf : Nat) (pre k : LC) (v : Profile) (Y : LC)
    (hpre : ∀ c ∈ pre, jsonWs c = true) (hsf : 12 < sf) (hk : k.length < sf)
    (hu : v.username.length < sf) (hem : v.email.length < sf)
    (hpa : v.ssh_key_path.length < sf) :
    parseEntry sf (pre ++ (dumpEntry k v ++ Y)) = some ((k, v), Y) := by
  have hc : dumpEntry k v ++ Y = "    ".data ++ (quoteJ k ++ (": ".data ++ (dumpProfile v ++ Y))) := by
    simp [dumpEntry, List.append_assoc]
  rw [hc]
  unfold parseEntry
  rw [show pre ++ ("    ".data ++ (quoteJ k ++ (": ".data ++ (dumpProfile v ++ Y))))
      = (pre ++ "    ".data) ++ (quoteJ k ++ (": ".data ++ (dumpProfile v ++ Y))) from by
    simp [List.append_assoc]]
  rw [parseKey_quote sf (pre ++ "    ".data) k _ (by
    intro c hc2
    rcases List.mem_append.mp hc2 with h | h
    · exact hpre c h
    · exact (by decide : ∀ x ∈ ("    ".data : LC), jsonWs x = true) c h) hk]
  show (match expectColon (": ".data ++ (dumpProfile v ++ Y)) with
    | some r2 =>
      match parseProfile sf r2 with
      | some (w, r3) => some ((k, w), r3)
      | none => none
    | none => none) = some ((k, v), Y)
  rw [expectColon_colon]
  show (match parseProfile sf ([' '] ++ (dumpProfile v ++ Y)) with
    | some (w, r3) => some ((k, w), r3)
    | none => none) = some ((k, v), Y)
  rw [parseProfile_dump sf [' '] v Y (by decide) hsf hu hem hpa]

theorem parseEntriesTail_dump (sf : Nat) :
    ∀ (rs : Registry) (lf : Nat) (E : LC), rs.length < lf → 12 < sf →
    (∀ e ∈ rs, e.1.length < sf ∧ e.2.username.length < sf ∧ e.2.email.length < sf ∧
      e.2.ssh_key_path.length < sf) →
    parseEntriesTail sf lf (dumpTail rs ++ E) = some (rs, E) := by
  intro rs
  induction rs with
  | nil =>
    intro lf E hlf hsf _
    obtain ⟨l, rfl⟩ : ∃ l, lf = l + 1 := ⟨lf - 1, by omega⟩
    rw [parseEntriesTail]
    rw [show (dumpTail [] ++ E : LC) = "\n".data ++ ("\x7d".data ++ E) from rfl,
      skipWs_allws_append _ (by decide),
      show ("\x7d".data ++ E : LC) = '\x7d' :: E from rfl,
      skipWs_cons_nws _ (by decide)]
    rfl
  | cons ent rs ih =>
    intro lf E hlf hsf hb
    obtain ⟨l, rfl⟩ : ∃ l, lf = l + 1 := ⟨lf - 1, by omega⟩
    obtain ⟨k, v⟩ := ent
    have hc : dumpTail ((k, v) :: rs) ++ E = ",\n".data ++ (dumpEntry k v ++ (dumpTail rs ++ E)) := by
      simp [dumpTail, List.append_assoc]
    rw [parseEntriesTail, hc,
      show (",\n".data ++ (dumpEntry k v ++ (dumpTail rs ++ E)) : LC)
        = ',' :: ("\n".data ++ (dumpEntry k v ++ (dumpTail rs ++ E))) from rfl,
      skipWs_cons_nws _ (by decide)]
    show (match parseEntry sf ("\n".data ++ (dumpEntry k v ++ (dumpTail rs ++ E))) with
      | some (e, r2) => (parseEntriesTail sf l r2).map fun q => (e :: q.1, q.2)
      | none => none) = some ((k, v) :: rs, E)
    have hbh := hb (k, v) (by simp)
    rw [parseEntry_dump sf "\n".data k v _ (by decide) hsf hbh.1 hbh.2.1 hbh.2.2.1 hbh.2.2.2]
    show (parseEntriesTail sf l (dumpTail rs ++ E)).map (fun q => ((k, v) :: q.1, q.2))
        = some ((k, v) :: rs, E)
    rw [ih l _ (by simp only [List.length_cons] at hlf; omega) hsf
      (fun e he2 => hb e (by simp [he2]))]
    rfl

theorem escChar_len (c : Char) : 1 ≤ (escChar c).length := by
  unfold escChar
  split_ifs <;> simp [hex4]

theorem escString_len (s : LC) : s.length ≤ (escString s).length := by
  induction s with
  | nil => simp [escString]
  | cons c t ih =>
    have hc := escChar_len c
    simp only [escString, List.length_append, List.length_cons]
    omega

theorem quoteJ_len (s : LC) : s.length + 2 ≤ (quoteJ s).length := by
  have h := escString_len s
  simp only [quoteJ, List.length_cons, List.length_append, List.length_singleton]
  omega

theorem dumpProfile_len (v : Profile) :
    v.username.length < (dumpProfile v).length ∧ v.email.length < (dumpProfile v).length ∧
    v.ssh_key_path.length < (dumpProfile v).length ∧ 12 < (dumpProfile v).length := by
  have h1 := escString_len v.username
  have h2 := escString_len v.email
  have h3 := escString_len v.ssh_key_path
  simp [dumpProfile, quoteJ, escString, escChar, List.length_append]
  omega

theorem dumpEntry_len (k : LC) (v : Profile) :
    k.length < (dumpEntry k v).length ∧ v.username.length < (dumpEntry k v).length ∧
    v.email.length < (dumpEntry k v).length ∧ v.ssh_key_path.length < (dumpEntry k v).length ∧
    12 < (dumpEntry k v).length := by
  have h1 := escString_len k
  have h2 := dumpProfile_len v
  simp [dumpEntry, quoteJ, List.length_append]
  omega

theorem dumpTail_bound : ∀ rs : Registry,
    rs.length < (dumpTail rs).length ∧
    ∀ e ∈ rs, e.1.length < (dumpTail rs).length ∧ e.2.username.length < (dumpTail rs).length ∧
      e.2.email.length < (dumpTail rs).length ∧ e.2.ssh_key_path.length < (dumpTail rs).length := by
  intro rs
  induction rs with
  | nil =>
    refine ⟨by decide, ?_⟩
    intro e he
    simp at he
  | cons ent rs ih =>
    obtain ⟨k, v⟩ := ent
    have h1 := dumpEntry_len k v
    have hlen : (dumpTail ((k, v) :: rs)).length
        = 2 + (dumpEntry k v).length + (dumpTail rs).length := by
      simp [dumpTail, List.length_append]
      try omega
    have hcount := ih.1
    refine ⟨by simp only [List.length_cons]; omega, ?_⟩
    intro e he
    obtain ⟨k2, v2⟩ := e
    rcases List.mem_cons.mp he with h | h
    · rw [Prod.mk.injEq] at h
      obtain ⟨rfl, rfl⟩ := h
      exact ⟨show k2.length < _ by omega, show v2.username.length < _ by omega,
        show v2.email.length < _ by omega, show v2.ssh_key_path.length < _ by omega⟩
    · have hm := ih.2 (k2, v2) h
      have hma : k2.length < (dumpTail rs).length := hm.1
      have hmb : v2.username.length < (dumpTail rs).length := hm.2.1
      have hmc : v2.email.length < (dumpTail rs).length := hm.2.2.1
      have hmd : v2.ssh_key_path.length < (dumpTail rs).length := hm.2.2.2
      exact ⟨show k2.length < _ by omega, show v2.username.length < _ by omega,
        show v2.email.length < _ by omega, show v2.ssh_key_path.length < _ by omega⟩

theorem loads_dumps (r : Registry) : json_loads (json_dumps r) = some r := by
  cases r with
  | nil => decide
  | cons ent rest =>
    obtain ⟨k, v⟩ := ent
    unfold json_loads
    generalize hsf : (json_dumps ((k, v) :: rest)).length + 1 = sf
    have hb1 := dumpEntry_len k v
    have hb2 := dumpTail_bound rest
    have hlen : (json_dumps ((k, v) :: rest)).length
        = 2 + (dumpEntry k v).length + (dumpTail rest).length := by
      simp [json_dumps, List.length_append]
      try omega
    have hc : json_dumps ((k, v) :: rest) = "\x7b\n".data ++ (dumpEntry k v ++ dumpTail rest) := by
      simp [json_dumps, List.append_assoc]
    rw [hc]
    rw [show ("\x7b\n".data ++ (dumpEntry k v ++ dumpTail rest) : LC)
        = '\x7b' :: ("\n".data ++ (dumpEntry k v ++ dumpTail rest)) from rfl,
      skipWs_cons_nws _ (by decide)]
    show (match skipWs ("\n".data ++ (dumpEntry k v ++ dumpTail rest)) with
      | '\x7d' :: r2 => if skipWs r2 = [] then some [] else none
      | _ =>
        match parseEntry sf ("\n".data ++ (dumpEntry k v ++ dumpTail rest)) with
        | some (e, r2) =>
          match parseEntriesTail sf sf r2 with
          | some (es, r3) => if skipWs r3 = [] then some (e :: es) else none
          | none => none
        | none => none) = some ((k, v) :: rest)
    have hc2 : dumpEntry k v ++ dumpTail rest
        = "    ".data ++ (quoteJ k ++ (": ".data ++ (dumpProfile v ++ dumpTail rest))) := by
      simp [dumpEntry, List.append_assoc]
    have hskip : skipWs ("\n".data ++ (dumpEntry k v ++ dumpTail rest))
        = '"' :: ((escString k ++ ['"']) ++ (": ".data ++ (dumpProfile v ++ dumpTail rest))) := by
      rw [skipWs_allws_append _ (by decide), hc2, skipWs_allws_append _ (by decide),
        show (quoteJ k ++ (": ".data ++ (dumpProfile v ++ dumpTail rest)) : LC)
          = '"' :: ((escString k ++ ['"']) ++ (": ".data ++ (dumpProfile v ++ dumpTail rest))) from rfl,
        skipWs_cons_nws _ (by decide)]
    rw [hskip]
    show (match parseEntry sf ("\n".data ++ (dumpEntry k v ++ dumpTail rest)) with
      | some (e, r2) =>
        match parseEntriesTail sf sf r2 with
        | some (es, r3) => if skipWs r3 = [] then some (e :: es) else none
        | none => none
      | none => none) = some ((k, v) :: rest)
    rw [parseEntry_dump sf "\n".data k v _ (by decide) (by omega) (by omega) (by omega)
      (by omega) (by omega)]
    show (match parseEntriesTail sf sf (dumpTail rest) with
      | some (es, r3) => if skipWs r3 = [] then some ((k, v) :: es) else none
      | none => none) = some ((k, v) :: rest)
    rw [show (dumpTail rest : LC) = dumpTail rest ++ [] from by simp]
    rw [parseEntriesTail_dump sf rest sf [] (by
        have := hb2.1
        omega) (by omega)
      (fun e he => by
        have hm := hb2.2 e he
        exact ⟨by omega, by omega, by omega, by omega⟩)]
    rfl

/-! ### Claims about the registry file -/

/-- C8: for a registry file whose content was produced by `save_config`,
`get_configs` followed by `save_config` of the loaded registry leaves the file
content byte-for-byte unchanged: the parser inverts the printer on its image,
so the reloaded registry is the one that was saved and re-saving reprints the
identical text. (Python dict keys are unique, hence the `Nodup` hypothesis on
the aliases of the saved registry.) -/
theorem c8_save_load_roundtrip (r0 : Registry) (hnd : (get_aliases r0).Nodup)
    (content : LC) (hc : content = save_config r0) :
    ∃ r, get_configs content = some r ∧ save_config r = content := by
  subst hc
  exact ⟨r0, loads_dumps r0, rfl⟩

/-- C8 witness: the round trip on a concrete one-profile registry. -/
theorem c8_save_load_roundtrip_witness :
    ∃ r, get_configs (save_config [("work".data,
        ⟨"alice".data, "alice@example.com".data, "~/.ssh/work.pub".data⟩)]) = some r ∧
      save_config r = save_config [("work".data,
        ⟨"alice".data, "alice@example.com".data, "~/.ssh/work.pub".data⟩)] :=
  c8_save_load_roundtrip
    [("work".data, ⟨"alice".data, "alice@example.com".data, "~/.ssh/work.pub".data⟩)]
    (by decide) _ rfl

/-- C10: the registry-writing operations preserve the registry schema. An
`add` that succeeds writes `json.dumps` of a registry of
`{username, email, ssh_key_path}` string profiles, the written file parses
back (`json_loads`) to exactly the written registry, and alias uniqueness is
preserved; likewise `remove` writes a parseable registry with unique aliases. -/
theorem c10_registry_shape_invariant :
    (∀ (r : Registry) (u e al p : LC) (r2 : Registry),
      handle_add_account r u e al p = .ok r2 →
        json_loads (json_dumps r2) = some r2 ∧
        ((get_aliases r).Nodup → (get_aliases r2).Nodup)) ∧
    (∀ (r : Registry) (al : LC), (get_aliases r).Nodup →
      json_loads (json_dumps (removeKey r al)) = some (removeKey r al) ∧
      (get_aliases (removeKey r al)).Nodup) := by
  constructor
  · intro r u e al p r2 hok
    refine ⟨loads_dumps r2, ?_⟩
    intro hnd
    unfold handle_add_account at hok
    split_ifs at hok with h1 h2 h3 h4
    obtain rfl : r ++ [(al, ⟨u, e, p⟩)] = r2 := by
      injection hok
    have haliases : get_aliases (r ++ [(al, ⟨u, e, p⟩)]) = get_aliases r ++ [al] := by
      simp [get_aliases]
    rw [haliases, List.nodup_append]
    exact ⟨hnd, List.nodup_singleton al, by simp [List.disjoint_singleton, h4]⟩
  · intro r al hnd
    refine ⟨loads_dumps _, ?_⟩
    have hsub : (removeKey r al).Sublist r := List.filter_sublist r
    have : (get_aliases (removeKey r al)).Sublist (get_aliases r) := hsub.map _
    exact hnd.sublist this

/-- C10 witness: a concrete successful add parses back, and a concrete remove
preserves the invariant. -/
theorem c10_registry_shape_invariant_witness :
    (json_loads (json_dumps [("work".data,
        ⟨"alice".data, "alice@example.com".data, "~/.ssh/work.pub".data⟩)])
      = some [("work".data,
        ⟨"alice".data, "alice@example.com".data, "~/.ssh/work.pub".data⟩)]) ∧
    (get_aliases (removeKey [("work".data,
        ⟨"alice".data, "alice@example.com".data, "~/.ssh/work.pub".data⟩)] "work".data)).Nodup :=
  ⟨(c10_registry_shape_invariant.1 [] "alice".data "alice@example.com".data "work".data
      "~/.ssh/work.pub".data _ rfl).1,
   (c10_registry_shape_invariant.2 [("work".data,
      ⟨"alice".data, "alice@example.com".data, "~/.ssh/work.pub".data⟩)] "work".data
      (by decide)).2⟩

set_option maxRecDepth 200000 in
/-- C5: `handle_add_account` fails with the duplicate error matching the first
violated uniqueness check, in source order (username, then email format, then
email, then alias), and a failed add never rewrites the registry file since
`save_config` runs only after every check; concretely, after adding two
distinct profiles, a third add reusing the first username fails with
`duplicateUsername` and leaves the two-entry registry file byte-for-byte
intact. -/
theorem c5_add_duplicate_checks :
    (∀ (r : Registry) (u e al p : LC), u ∈ get_usernames r →
      handle_add_account r u e al p = .error .duplicateUsername) ∧
    (∀ (r : Registry) (u e al p : LC), u ∉ get_usernames r → validate_email e = true →
      e ∈ get_emails r → handle_add_account r u e al p = .error .duplicateEmail) ∧
    (∀ (r : Registry) (u e al p : LC), u ∉ get_usernames r → validate_email e = true →
      e ∉ get_emails r → al ∈ get_aliases r →
      handle_add_account r u e al p = .error .duplicateAlias) ∧
    (∀ content u e al p : LC, (add_op content u e al p).2.isSome = true →
      (add_op content u e al p).1 = content) ∧
    handle_add_account [] "alice".data "alice@example.com".data "work".data "~/.ssh/work.pub".data
      = .ok [("work".data, ⟨"alice".data, "alice@example.com".data, "~/.ssh/work.pub".data⟩)] ∧
    handle_add_account
        [("work".data, ⟨"alice".data, "alice@example.com".data, "~/.ssh/work.pub".data⟩)]
        "bob".data "bob@example.com".data "personal".data "~/.ssh/personal.pub".data
      = .ok [("work".data, ⟨"alice".data, "alice@example.com".data, "~/.ssh/work.pub".data⟩),
             ("personal".data, ⟨"bob".data, "bob@example.com".data, "~/.ssh/personal.pub".data⟩)] ∧
    add_op (save_config
        [("work".data, ⟨"alice".data, "alice@example.com".data, "~/.ssh/work.pub".data⟩),
         ("personal".data, ⟨"bob".data, "bob@example.com".data, "~/.ssh/personal.pub".data⟩)])
        "alice".data "carol@example.com".data "other".data "~/.ssh/other.pub".data
      = (save_config
          [("work".data, ⟨"alice".data, "alice@example.com".data, "~/.ssh/work.pub".data⟩),
           ("personal".data, ⟨"bob".data, "bob@example.com".data, "~/.ssh/personal.pub".data⟩)],
         some .duplicateUsername) := by
  refine ⟨?_, ?_, ?_, ?_, rfl, rfl, rfl⟩
  · intro r u e al p h
    unfold handle_add_account
    rw [if_pos h]
  · intro r u e al p h1 h2 h3
    unfold handle_add_account
    rw [if_neg h1, if_neg (by simp [h2]), if_pos h3]
  · intro r u e al p h1 h2 h3 h4
    unfold handle_add_account
    rw [if_neg h1, if_neg (by simp [h2]), if_neg h3, if_pos h4]
  · intro content u e al p h
    unfold add_op at h ⊢
    cases hg : get_configs content with
    | none => simp [hg]
    | some r =>
      simp only [hg] at h ⊢
      cases hh : handle_add_account r u e al p with
      | error err => simp [hh]
      | ok r2 => simp [hh] at h

/-- C5 witness: the duplicate-username check applied at a concrete registry. -/
theorem c5_add_duplicate_checks_witness :
    handle_add_account
        [("work".data, ⟨"alice".data, "alice@example.com".data, "~/.ssh/work.pub".data⟩)]
        "alice".data "x@y.z".data "other".data "~/.ssh/o.pub".data
      = .error .duplicateUsername :=
  c5_add_duplicate_checks.1
    [("work".data, ⟨"alice".data, "alice@example.com".data, "~/.ssh/work.pub".data⟩)]
    "alice".data "x@y.z".data "other".data "~/.ssh/o.pub".data (by decide)

set_option maxRecDepth 100000 in
/-- C3 counterexample: removing the absent alias `y` from the empty registry
prints `Account y not found` via `print` — to standard output, not the error
stream — and the process falls through to a normal exit with code 0, while the
claim requires a message on the error stream and a non-zero exit. -/
theorem c3_remove_not_found_counterexample :
    (main_remove "\x7b\x7d".data "Host work\n".data "y".data).stream = .stdout ∧
    (main_remove "\x7b\x7d".data "Host work\n".data "y".data).exitCode = 0 ∧
    (main_remove "\x7b\x7d".data "Host work\n".data "y".data).config = "\x7b\x7d".data := by
  refine ⟨rfl, rfl, rfl⟩

/-- C3 (amended): for every parseable registry and every alias absent from it,
the remove operation leaves the registry file (and the SSH config) unchanged
and prints the human-readable message `Account <alias> not found`, but on
standard output and with exit code 0 — no error propagates, so the process
exits successfully. -/
theorem c3_remove_absent_alias (config ssh al : LC) (r : Registry)
    (h1 : get_configs config = some r) (h2 : al ∉ get_aliases r) :
    main_remove config ssh al
      = ⟨config, ssh, "Account ".data ++ al ++ " not found".data, .stdout, 0⟩ := by
  unfold main_remove
  rw [h1]
  show (if al ∈ get_aliases r then _ else _) = _
  rw [if_neg h2]

/-- C3 witness: the amended statement evaluated on the empty registry. -/
theorem c3_remove_absent_alias_witness :
    main_remove "\x7b\x7d".data "Host work\n".data "y".data
      = ⟨"\x7b\x7d".data, "Host work\n".data,
          "Account ".data ++ "y".data ++ " not found".data, .stdout, 0⟩ :=
  c3_remove_absent_alias "\x7b\x7d".data "Host work\n".data "y".data [] (by rfl) (by decide)
